import Mathlib

/-!
Shallow embedding of `src/app.py` (Valentine Mini Wordle): the scorer
`score_guess`, the guess validator `is_valid_guess`, and the round
state machine driven by Streamlit reruns, together with proofs of the
specification's claims about them.

Python strings are modelled as `List Char`; the per-guess status rows are
lists of the literal strings `"correct"`, `"present"`, `"absent"` exactly as
in the source.  Fallible list indexing is modelled with `Option`.
-/

/-- ASCII whitespace stripped by Python's `str.strip()` (modelled for the
ASCII range). -/
def isPySpace (c : Char) : Bool :=
  c = ' ' || c = '\t' || c = '\n' || c = '\r' || c = '\x0b' || c = '\x0c'

/-- Python `str.upper()` on a single character, modelled for the ASCII range:
lowercase letters map to uppercase, everything else is unchanged. -/
def pyUpperChar (c : Char) : Char :=
  if 'a' ≤ c ∧ c ≤ 'z' then Char.ofNat (c.toNat - 32) else c

/-- Python `str.upper()`. -/
def pyUpper (s : List Char) : List Char := s.map pyUpperChar

/-- Python `str.strip()`: drop whitespace from both ends. -/
def pyStrip (s : List Char) : List Char :=
  ((s.dropWhile isPySpace).reverse.dropWhile isPySpace).reverse

/-- `answer_counts[a] = answer_counts.get(a, 0) + 1` on the tally dict,
modelled as a function `Char → Nat` (`get` with default 0). -/
def bumpCount (counts : Char → Nat) (a : Char) : Char → Nat :=
  fun c => if c = a then counts a + 1 else counts c

/-- `answer_counts[g] -= 1` on the tally dict. -/
def decrCount (counts : Char → Nat) (g : Char) : Char → Nat :=
  fun c => if c = g then counts g - 1 else counts c

/-- First pass of `score_guess`: `for i, (g, a) in enumerate(zip(guess, answer))`,
walking the status list in lockstep with the zipped pairs.  Writing
`status[i] = "correct"` past the end of the status list is Python's
`IndexError`, modelled as `none`; when `g ≠ a` no indexing happens, so an
exhausted status list is not an error there. -/
def firstPass : List (Char × Char) → List String → (Char → Nat) →
    Option (List String × (Char → Nat))
  | [], status, counts => some (status, counts)
  | (g, a) :: rest, status, counts =>
    if g = a then
      match status with
      | [] => none
      | _ :: ss =>
        (firstPass rest ss counts).map (fun r => ("correct" :: r.1, r.2))
    else
      match status with
      | [] => (firstPass rest [] (bumpCount counts a)).map (fun r => (r.1, r.2))
      | s :: ss =>
        (firstPass rest ss (bumpCount counts a)).map (fun r => (s :: r.1, r.2))

/-- Second pass of `score_guess`: `for i, g in enumerate(guess)`, reading
`status[i]` (an `IndexError`, i.e. `none`, once the guess outruns the
5-element status list) and overwriting it with `"present"` while the tally
for `g` is positive. -/
def secondPass : List Char → List String → (Char → Nat) → Option (List String)
  | [], status, _ => some status
  | _ :: _, [], _ => none
  | g :: gs, s :: ss, counts =>
    if s = "correct" then
      (secondPass gs ss counts).map (fun r => s :: r)
    else if counts g > 0 then
      (secondPass gs ss (decrCount counts g)).map (fun r => "present" :: r)
    else
      (secondPass gs ss counts).map (fun r => s :: r)

/-- `score_guess(guess, answer)` from `src/app.py`: uppercase both inputs,
start from `status = ["absent"] * 5` and an empty tally, run the two passes. -/
def score_guess (guess answer : List Char) : Option (List String) :=
  let g := pyUpper guess
  let a := pyUpper answer
  match firstPass (g.zip a) (List.replicate 5 "absent") (fun _ => 0) with
  | none => none
  | some (status, counts) => secondPass g status counts

/-- The configured answers `ANSWERS = ["FLIRT", "SWEET", "AMOUR", "HEART"]`. -/
def ANSWERS : List (List Char) :=
  [['F', 'L', 'I', 'R', 'T'], ['S', 'W', 'E', 'E', 'T'],
   ['A', 'M', 'O', 'U', 'R'], ['H', 'E', 'A', 'R', 'T']]

/-- `VALID_GUESSES` (as a list; membership is what the code tests). -/
def VALID_GUESSES : List (List Char) :=
  ANSWERS ++
  [['L', 'A', 'T', 'E', 'R'], ['T', 'E', 'A', 'R', 'S'], ['S', 'M', 'I', 'L', 'E'],
   ['R', 'O', 'S', 'E', 'S'], ['A', 'D', 'O', 'R', 'E'], ['L', 'O', 'V', 'E', 'R'],
   ['A', 'N', 'G', 'E', 'L'], ['K', 'I', 'S', 'S', 'E', 'S']]

/-- `STRICT_VALIDATION = False` in the reference configuration. -/
def STRICT_VALIDATION : Bool := false

/-- `re.fullmatch(r"[A-Z]{5}", s)`: exactly five characters, each in `A`–`Z`. -/
def fullmatchFiveUpper (s : List Char) : Bool :=
  s.length = 5 && s.all (fun c => 'A' ≤ c && c ≤ 'Z')

/-- `is_valid_guess(s)` from `src/app.py`: strip and uppercase, then the
regex check, then (only in strict mode) the word-list check; returns the
`(ok, message)` pair of the source. -/
def is_valid_guess (s0 : List Char) : Bool × String :=
  let s := pyUpper (pyStrip s0)
  if ¬ fullmatchFiveUpper s then (false, "Enter exactly 5 letters.")
  else if STRICT_VALIDATION && ¬ VALID_GUESSES.contains s then
    (false, "Not in the word list.")
  else (true, "")

/-! ## The session state and the per-rerun state machine -/

/-- The Streamlit session state created by `init_state()` and mutated by the
handlers in `src/app.py`. -/
structure GameState where
  round_idx : Nat
  guesses : List (List (List Char))
  statuses : List (List (List String))
  round_solved : List Bool
  show_note : Bool
  final_choice : Option String
  win_pulse : Bool
  input_key : Nat
  deriving Repr, DecidableEq

/-- The state built by `init_state()` on a fresh session (also the state
after `reset_all()` plus the re-initialising rerun). -/
def init_state : GameState where
  round_idx := 0
  guesses := List.replicate ANSWERS.length []
  statuses := List.replicate ANSWERS.length []
  round_solved := List.replicate ANSWERS.length false
  show_note := false
  final_choice := none
  win_pulse := false
  input_key := 0

/-- `st.session_state.guesses[r]` (default `[]` for an out-of-range index). -/
def roundGuesses (s : GameState) (r : Nat) : List (List Char) :=
  s.guesses.getD r []

/-- `st.session_state.statuses[r]`. -/
def roundStatuses (s : GameState) (r : Nat) : List (List String) :=
  s.statuses.getD r []

/-- `st.session_state.round_solved[r]`. -/
def solvedAt (s : GameState) (r : Nat) : Bool :=
  s.round_solved.getD r false

/-- Lines 242–244: `all_solved = all(st.session_state.round_solved)`; if all
solved and `round_idx < len(ANSWERS)`, jump `round_idx` to `len(ANSWERS)`. -/
def allSolvedShortcut (s : GameState) : GameState :=
  if s.round_solved.all (fun b => b) ∧ s.round_idx < ANSWERS.length then
    { s with round_idx := ANSWERS.length }
  else s

/-- Line 247: the final-question screen is shown iff
`round_idx >= len(ANSWERS)`. -/
def isFinalQuestion (s : GameState) : Bool :=
  ANSWERS.length ≤ s.round_idx

/-- The user actions that drive a rerun of the script. -/
inductive UserAction where
  | submit (raw : List Char)
  | nextRound
  | tryAgain
  | reset
  | clickYes
  deriving Repr, DecidableEq

/-- The "Try again" handler (lines 376–382): clear only the current round's
guesses, statuses and solved flag, and bump `input_key`. -/
def clearCurrentRound (s : GameState) : GameState :=
  { s with
    guesses := s.guesses.set s.round_idx []
    statuses := s.statuses.set s.round_idx []
    round_solved := s.round_solved.set s.round_idx false
    input_key := s.input_key + 1 }

/-- The submit handler (lines 397–418): normalise the raw input
(`g = guess.strip().upper()`), validate it (`st.error` + `st.stop` leaves
the state untouched on failure), otherwise append the normalised guess and
its score to the current round and, on a win (`g == answer`), additionally
set the solved flag and the win pulse. -/
def submitHandler (s : GameState) (raw : List Char) : GameState :=
  if (is_valid_guess (pyUpper (pyStrip raw))).1 = false then s
  else if pyUpper (pyStrip raw) = ANSWERS.getD s.round_idx [] then
    { s with
      guesses := s.guesses.set s.round_idx
        (roundGuesses s s.round_idx ++ [pyUpper (pyStrip raw)])
      statuses := s.statuses.set s.round_idx
        (roundStatuses s s.round_idx ++
          [(score_guess (pyUpper (pyStrip raw)) (ANSWERS.getD s.round_idx [])).getD []])
      round_solved := s.round_solved.set s.round_idx true
      win_pulse := true
      input_key := s.input_key + 1 }
  else
    { s with
      guesses := s.guesses.set s.round_idx
        (roundGuesses s s.round_idx ++ [pyUpper (pyStrip raw)])
      statuses := s.statuses.set s.round_idx
        (roundStatuses s s.round_idx ++
          [(score_guess (pyUpper (pyStrip raw)) (ANSWERS.getD s.round_idx [])).getD []])
      input_key := s.input_key + 1 }

/-- Dispatch of one rerun on the live screen, after the all-solved
short-circuit: final question (`round_idx >= len(ANSWERS)`, line 247),
solved round (Next button, lines 360–368), exhausted round (Try again
button, lines 371–383), or the guess input screen (lines 386–418).  An
action whose widget is not on the live screen does nothing. -/
def stepScreen (s : GameState) (a : UserAction) : GameState :=
  if ANSWERS.length ≤ s.round_idx then
    match a with
    | .clickYes => { s with final_choice := some "YES" }
    | _ => s
  else if solvedAt s s.round_idx then
    match a with
    | .nextRound =>
      { s with
        show_note := false
        round_idx := s.round_idx + 1
        input_key := s.input_key + 1 }
    | _ => s
  else if 6 ≤ (roundGuesses s s.round_idx).length then
    match a with
    | .tryAgain => clearCurrentRound s
    | _ => s
  else
    match a with
    | .submit raw => submitHandler s raw
    | _ => s

/-- One rerun of the script processing one user action.  The reset button
(lines 236–239) is handled before anything else and yields the re-initialised
state.  Every other rerun first applies the all-solved short-circuit (lines
242–244) and then dispatches on the live screen. -/
def step (s0 : GameState) (a : UserAction) : GameState :=
  match a with
  | .reset => init_state
  | _ => stepScreen (allSolvedShortcut s0) a

/-- The session states reachable from a fresh session by user actions. -/
inductive Reachable : GameState → Prop where
  | init : Reachable init_state
  | step : ∀ {s} (a : UserAction), Reachable s → Reachable (step s a)

/-! ## Counting CORRECT/PRESENT markings -/

/-- Is a status string a CORRECT or PRESENT marking? -/
def isCP (s : String) : Bool := s == "correct" || s == "present"

/-- Number of positions where the guess holds letter `c` and the status row
marks CORRECT or PRESENT. -/
def markedCP (gs : List Char) (st : List String) (c : Char) : Nat :=
  (gs.zip st).countP (fun p => p.1 == c && isCP p.2)

/-- Same count, but over the zipped `(guess, answer)` pair list that the
first pass consumes. -/
def cpFst (pl : List (Char × Char)) (st : List String) (c : Char) : Nat :=
  (pl.zip st).countP (fun q => q.1.1 == c && isCP q.2)

/-- Spec-side reading of "exactly 5 alphabetic characters (A–Z)". -/
def isFiveAlpha (l : List Char) : Prop :=
  l.length = 5 ∧ ∀ c ∈ l, 'A' ≤ c ∧ c ≤ 'Z'

/-- A state whose current round used its 6 guesses without solving
(for exercising the "Try again" handler). -/
def exhaustedState : GameState :=
  { init_state with
    guesses := List.replicate 6 ['A', 'D', 'O', 'R', 'E'] ::
      [['S', 'W', 'E', 'E', 'T']] :: [[], []]
    statuses := (List.replicate 6 (List.replicate 5 "absent")) ::
      [List.replicate 5 "absent"] :: [[], []] }

/-- A state in which round 2 is solved (for exercising the no-append guard). -/
def solvedRound2State : GameState :=
  { init_state with
    round_idx := 2
    round_solved := [false, false, true, false] }

/-- A state with every round solved but a stale round index
(for exercising the all-solved short-circuit). -/
def staleAllSolvedState : GameState :=
  { init_state with
    round_idx := 1
    round_solved := List.replicate 4 true }

/-- Pure characterisation of the status list produced by the first pass
(proved equal to `firstPass`'s status component when the pair list does not
outrun the status list). -/
def fpStatus : List (Char × Char) → List String → List String
  | [], st => st
  | _ :: _, [] => []
  | (g, a) :: rest, s :: ss => (if g = a then "correct" else s) :: fpStatus rest ss

/-- Pure characterisation of the tally produced by the first pass. -/
def fpCounts : List (Char × Char) → (Char → Nat) → (Char → Nat)
  | [], counts => counts
  | (g, a) :: rest, counts =>
    fpCounts rest (if g = a then counts else bumpCount counts a)

/-- Pure characterisation of the status list produced by the second pass
(proved equal to `secondPass` when the guess does not outrun the status
list). -/
def spStatus : List Char → List String → (Char → Nat) → List String
  | [], st, _ => st
  | _ :: _, [], _ => []
  | g :: gs, s :: ss, counts =>
    if s = "correct" then s :: spStatus gs ss counts
    else if counts g > 0 then "present" :: spStatus gs ss (decrCount counts g)
    else s :: spStatus gs ss counts

/-! ## Unfolding equations for the two passes -/

theorem firstPass_nil (st : List String) (counts : Char → Nat) :
    firstPass [] st counts = some (st, counts) := rfl

theorem firstPass_cons_eq {g a : Char} (hga : g = a) (rest : List (Char × Char))
    (s : String) (ss : List String) (counts : Char → Nat) :
    firstPass ((g, a) :: rest) (s :: ss) counts =
      (firstPass rest ss counts).map (fun r => ("correct" :: r.1, r.2)) := by
  simp [firstPass, hga]

theorem firstPass_cons_eq_nil {g a : Char} (hga : g = a)
    (rest : List (Char × Char)) (counts : Char → Nat) :
    firstPass ((g, a) :: rest) [] counts = none := by
  simp [firstPass, hga]

theorem firstPass_cons_ne {g a : Char} (hga : ¬ g = a) (rest : List (Char × Char))
    (s : String) (ss : List String) (counts : Char → Nat) :
    firstPass ((g, a) :: rest) (s :: ss) counts =
      (firstPass rest ss (bumpCount counts a)).map (fun r => (s :: r.1, r.2)) := by
  simp [firstPass, hga]

theorem firstPass_cons_ne_nil {g a : Char} (hga : ¬ g = a)
    (rest : List (Char × Char)) (counts : Char → Nat) :
    firstPass ((g, a) :: rest) [] counts =
      (firstPass rest [] (bumpCount counts a)).map (fun r => (r.1, r.2)) := by
  simp [firstPass, hga]

theorem secondPass_nil (st : List String) (counts : Char → Nat) :
    secondPass [] st counts = some st := rfl

theorem secondPass_cons_nil (g : Char) (gs : List Char) (counts : Char → Nat) :
    secondPass (g :: gs) [] counts = none := rfl

theorem secondPass_cons_correct {s : String} (hs : s = "correct") (g : Char)
    (gs : List Char) (ss : List String) (counts : Char → Nat) :
    secondPass (g :: gs) (s :: ss) counts =
      (secondPass gs ss counts).map (fun r => s :: r) := by
  simp [secondPass, hs]

theorem secondPass_cons_present {s : String} (hs : ¬ s = "correct") {g : Char}
    {counts : Char → Nat} (hc : counts g > 0) (gs : List Char) (ss : List String) :
    secondPass (g :: gs) (s :: ss) counts =
      (secondPass gs ss (decrCount counts g)).map (fun r => "present" :: r) := by
  simp [secondPass, hs, hc]

theorem secondPass_cons_skip {s : String} (hs : ¬ s = "correct") {g : Char}
    {counts : Char → Nat} (hc : ¬ counts g > 0) (gs : List Char) (ss : List String) :
    secondPass (g :: gs) (s :: ss) counts =
      (secondPass gs ss counts).map (fun r => s :: r) := by
  simp [secondPass, hs, hc]

theorem markedCP_nil (st : List String) (c : Char) : markedCP [] st c = 0 := rfl

theorem markedCP_nil_right (gs : List Char) (c : Char) : markedCP gs [] c = 0 := by
  simp [markedCP]

theorem markedCP_cons (g : Char) (gs : List Char) (s : String) (ss : List String)
    (c : Char) :
    markedCP (g :: gs) (s :: ss) c =
      (if g == c && isCP s then 1 else 0) + markedCP gs ss c := by
  simp [markedCP, List.countP_cons]
  omega

theorem cpFst_nil (st : List String) (c : Char) : cpFst [] st c = 0 := rfl

theorem cpFst_nil_right (pl : List (Char × Char)) (c : Char) : cpFst pl [] c = 0 := by
  simp [cpFst]

theorem cpFst_cons (g a : Char) (pl : List (Char × Char)) (s : String)
    (ss : List String) (c : Char) :
    cpFst ((g, a) :: pl) (s :: ss) c =
      (if g == c && isCP s then 1 else 0) + cpFst pl ss c := by
  simp [cpFst, List.countP_cons]
  omega

theorem firstPass_eq (pl : List (Char × Char)) :
    ∀ (st : List String) (counts : Char → Nat), pl.length ≤ st.length →
    firstPass pl st counts = some (fpStatus pl st, fpCounts pl counts) := by
  induction pl with
  | nil => intro st counts _; rfl
  | cons p rest ih =>
    obtain ⟨g, a⟩ := p
    intro st counts hlen
    cases st with
    | nil => simp at hlen
    | cons s ss =>
      simp only [List.length_cons, Nat.add_le_add_iff_right] at hlen
      by_cases hga : g = a
      · rw [firstPass_cons_eq hga, ih ss counts hlen]
        simp [fpStatus, fpCounts, hga]
      · rw [firstPass_cons_ne hga, ih ss (bumpCount counts a) hlen]
        simp [fpStatus, fpCounts, hga]

theorem secondPass_eq (gs : List Char) :
    ∀ (st : List String) (counts : Char → Nat), gs.length ≤ st.length →
    secondPass gs st counts = some (spStatus gs st counts) := by
  induction gs with
  | nil => intro st counts _; rfl
  | cons g rest ih =>
    intro st counts hlen
    cases st with
    | nil => simp at hlen
    | cons s ss =>
      simp only [List.length_cons, Nat.add_le_add_iff_right] at hlen
      by_cases hs : s = "correct"
      · rw [secondPass_cons_correct hs, ih ss counts hlen]
        simp [spStatus, hs]
      · by_cases hc : counts g > 0
        · rw [secondPass_cons_present hs hc, ih ss (decrCount counts g) hlen]
          simp [spStatus, hs, hc]
        · rw [secondPass_cons_skip hs hc, ih ss counts hlen]
          simp [spStatus, hs, hc]

theorem fpStatus_length (pl : List (Char × Char)) :
    ∀ st : List String, pl.length ≤ st.length → (fpStatus pl st).length = st.length := by
  induction pl with
  | nil => intro st _; rfl
  | cons p rest ih =>
    obtain ⟨g, a⟩ := p
    intro st hlen
    cases st with
    | nil => simp at hlen
    | cons s ss =>
      simp only [List.length_cons, Nat.add_le_add_iff_right] at hlen
      simp [fpStatus, ih ss hlen]

theorem spStatus_length (gs : List Char) :
    ∀ (st : List String) (counts : Char → Nat), gs.length ≤ st.length →
    (spStatus gs st counts).length = st.length := by
  induction gs with
  | nil => intro st counts _; rfl
  | cons g rest ih =>
    intro st counts hlen
    cases st with
    | nil => simp at hlen
    | cons s ss =>
      simp only [List.length_cons, Nat.add_le_add_iff_right] at hlen
      by_cases hs : s = "correct"
      · simp [spStatus, hs, ih ss counts hlen]
      · by_cases hc : counts g > 0
        · simp [spStatus, hs, hc, ih ss (decrCount counts g) hlen]
        · simp [spStatus, hs, hc, ih ss counts hlen]

theorem fpStatus_mem (pl : List (Char × Char)) :
    ∀ (st : List String) (x : String), x ∈ fpStatus pl st → x = "correct" ∨ x ∈ st := by
  induction pl with
  | nil => intro st x hx; exact Or.inr hx
  | cons p rest ih =>
    obtain ⟨g, a⟩ := p
    intro st x hx
    cases st with
    | nil => simp [fpStatus] at hx
    | cons s ss =>
      by_cases hga : g = a
      · simp [fpStatus, hga] at hx
        rcases hx with hx | hx
        · exact Or.inl hx
        · rcases ih ss x hx with h | h
          · exact Or.inl h
          · exact Or.inr (List.mem_cons_of_mem s h)
      · simp [fpStatus, hga] at hx
        rcases hx with hx | hx
        · exact Or.inr (hx ▸ List.mem_cons_self s ss)
        · rcases ih ss x hx with h | h
          · exact Or.inl h
          · exact Or.inr (List.mem_cons_of_mem s h)

theorem spStatus_mem (gs : List Char) :
    ∀ (st : List String) (counts : Char → Nat) (x : String),
    x ∈ spStatus gs st counts → x = "present" ∨ x ∈ st := by
  induction gs with
  | nil => intro st counts x hx; exact Or.inr hx
  | cons g rest ih =>
    intro st counts x hx
    cases st with
    | nil => simp [spStatus] at hx
    | cons s ss =>
      by_cases hs : s = "correct"
      all_goals by_cases hc : counts g > 0
      all_goals simp [spStatus, hs, hc] at hx
      all_goals rcases hx with hx | hx
      · exact Or.inr (by simp [hs, hx])
      · rcases ih ss counts x hx with h | h
        · exact Or.inl h
        · exact Or.inr (List.mem_cons_of_mem s h)
      · exact Or.inr (by simp [hs, hx])
      · rcases ih ss counts x hx with h | h
        · exact Or.inl h
        · exact Or.inr (List.mem_cons_of_mem s h)
      · exact Or.inl hx
      · rcases ih ss (decrCount counts g) x hx with h | h
        · exact Or.inl h
        · exact Or.inr (List.mem_cons_of_mem s h)
      · exact Or.inr (hx ▸ List.mem_cons_self s ss)
      · rcases ih ss counts x hx with h | h
        · exact Or.inl h
        · exact Or.inr (List.mem_cons_of_mem s h)

theorem fpCounts_le (c : Char) (pl : List (Char × Char)) :
    ∀ counts : Char → Nat,
    fpCounts pl counts c ≤ counts c + pl.countP (fun p => p.2 == c) := by
  induction pl with
  | nil => intro counts; simp [fpCounts]
  | cons p rest ih =>
    obtain ⟨g, a⟩ := p
    intro counts
    by_cases hga : g = a
    · have h := ih counts
      simp only [fpCounts, hga, if_pos]
      simp only [List.countP_cons]
      omega
    · have h := ih (bumpCount counts a)
      simp only [fpCounts, hga, if_neg, ite_false]
      simp only [List.countP_cons]
      have hb : bumpCount counts a c = counts c + (if a == c then 1 else 0) := by
        by_cases hca : c = a
        · simp [bumpCount, hca]
        · have : ¬ (a == c) = true := by
            simp only [beq_iff_eq]; intro hac; exact hca hac.symm
          simp [bumpCount, hca, this]
      omega

theorem firstPass_conserves (c : Char) (pl : List (Char × Char)) :
    ∀ st : List String, (∀ x ∈ st, x = "absent") →
    ∀ counts : Char → Nat,
    cpFst pl (fpStatus pl st) c + fpCounts pl counts c ≤
      counts c + pl.countP (fun p => p.2 == c) := by
  induction pl with
  | nil => intro st _ counts; simp [cpFst_nil, fpCounts]
  | cons p rest ih =>
    obtain ⟨g, a⟩ := p
    intro st hst counts
    cases st with
    | nil =>
      have h0 : fpStatus ((g, a) :: rest) ([] : List String) = [] := rfl
      rw [h0, cpFst_nil_right]
      simpa using fpCounts_le c ((g, a) :: rest) counts
    | cons s ss =>
      have hs : s = "absent" := hst s (List.mem_cons_self s ss)
      have hss : ∀ x ∈ ss, x = "absent" := fun x hx => hst x (List.mem_cons_of_mem s hx)
      by_cases hga : g = a
      · have hfp : fpStatus ((g, a) :: rest) (s :: ss) = "correct" :: fpStatus rest ss := by
          simp [fpStatus, hga]
        have hfc : fpCounts ((g, a) :: rest) counts = fpCounts rest counts := by
          simp [fpCounts, hga]
        rw [hfp, hfc, cpFst_cons]
        have h := ih ss hss counts
        simp only [List.countP_cons]
        have hcp : isCP "correct" = true := rfl
        by_cases hgc : g = c
        · have h1 : (g == c && isCP "correct") = true := by simp [hgc, hcp]
          have h2 : (a == c) = true := by simp [hga ▸ hgc]
          simp only [h1, if_true, h2]
          omega
        · have h1 : (g == c && isCP "correct") = false := by simp [hgc]
          have h2 : (a == c) = false := by
            simp only [beq_eq_false_iff_ne, ne_eq]
            exact fun hac => hgc (hga ▸ hac)
          simp only [h1, if_false, h2]
          omega
      · have hfp : fpStatus ((g, a) :: rest) (s :: ss) = s :: fpStatus rest ss := by
          simp [fpStatus, hga]
        have hfc : fpCounts ((g, a) :: rest) counts = fpCounts rest (bumpCount counts a) := by
          simp [fpCounts, hga]
        rw [hfp, hfc, cpFst_cons]
        have h := ih ss hss (bumpCount counts a)
        simp only [List.countP_cons]
        have hcp : isCP s = false := by rw [hs]; rfl
        have h1 : (g == c && isCP s) = false := by simp [hcp]
        have hb : bumpCount counts a c = counts c + (if a == c then 1 else 0) := by
          by_cases hca : c = a
          · simp [bumpCount, hca]
          · have : ¬ (a == c) = true := by
              simp only [beq_iff_eq]; intro hac; exact hca hac.symm
            simp [bumpCount, hca, this]
        simp only [h1, Bool.false_eq_true, if_false]
        omega

theorem secondPass_conserves (c : Char) (gs : List Char) :
    ∀ st : List String, (∀ x ∈ st, x = "correct" ∨ x = "absent") →
    ∀ counts : Char → Nat,
    markedCP gs (spStatus gs st counts) c ≤ markedCP gs st c + counts c := by
  induction gs with
  | nil => intro st _ counts; simp [markedCP_nil]
  | cons g rest ih =>
    intro st hst counts
    cases st with
    | nil =>
      have h0 : spStatus (g :: rest) ([] : List String) counts = [] := rfl
      rw [h0, markedCP_nil_right]
      omega
    | cons s ss =>
      have hss : ∀ x ∈ ss, x = "correct" ∨ x = "absent" :=
        fun x hx => hst x (List.mem_cons_of_mem s hx)
      by_cases hs : s = "correct"
      · have hsp : spStatus (g :: rest) (s :: ss) counts = s :: spStatus rest ss counts := by
          simp [spStatus, hs]
        rw [hsp, markedCP_cons, markedCP_cons]
        have h := ih ss hss counts
        omega
      · have hsa : s = "absent" := by
          rcases hst s (List.mem_cons_self s ss) with h | h
          · exact absurd h hs
          · exact h
        by_cases hc : counts g > 0
        · have hsp : spStatus (g :: rest) (s :: ss) counts =
              "present" :: spStatus rest ss (decrCount counts g) := by
            simp [spStatus, hs, hc]
          rw [hsp, markedCP_cons, markedCP_cons]
          have h := ih ss hss (decrCount counts g)
          have hcpp : isCP "present" = true := rfl
          have hcpa : isCP s = false := by rw [hsa]; rfl
          have h2 : (g == c && isCP s) = false := by simp [hcpa]
          by_cases hgc : g = c
          · have h1 : (g == c && isCP "present") = true := by simp [hgc, hcpp]
            have hd : decrCount counts g c = counts g - 1 := by simp [decrCount, hgc]
            simp only [h1, if_true, h2, if_false] at *
            have hcc : counts c = counts g := by rw [hgc]
            omega
          · have h1 : (g == c && isCP "present") = false := by simp [hgc]
            have hd : decrCount counts g c = counts c := by
              have : ¬ c = g := fun hcg => hgc hcg.symm
              simp [decrCount, this]
            simp only [h1, h2, if_false] at *
            omega
        · have hsp : spStatus (g :: rest) (s :: ss) counts =
              s :: spStatus rest ss counts := by
            simp [spStatus, hs, hc]
          rw [hsp, markedCP_cons, markedCP_cons]
          have h := ih ss hss counts
          omega

theorem cpFst_zip_eq_markedCP (c : Char) (G : List Char) :
    ∀ (A : List Char) (st : List String), G.length = A.length →
    cpFst (G.zip A) st c = markedCP G st c := by
  induction G with
  | nil => intro A st _; rfl
  | cons g Gr ih =>
    intro A st hlen
    cases A with
    | nil => simp at hlen
    | cons a Ar =>
      simp only [List.length_cons, Nat.add_right_cancel_iff] at hlen
      cases st with
      | nil => rw [cpFst_nil_right, markedCP_nil_right]
      | cons s ss =>
        rw [List.zip_cons_cons, cpFst_cons, markedCP_cons, ih Ar ss hlen]

theorem countP_snd_zip (c : Char) (G : List Char) :
    ∀ A : List Char, G.length = A.length →
    (G.zip A).countP (fun p => p.2 == c) = A.countP (fun x => x == c) := by
  induction G with
  | nil =>
    intro A hlen
    cases A with
    | nil => rfl
    | cons a Ar => simp at hlen
  | cons g Gr ih =>
    intro A hlen
    cases A with
    | nil => simp at hlen
    | cons a Ar =>
      simp only [List.length_cons, Nat.add_right_cancel_iff] at hlen
      rw [List.zip_cons_cons, List.countP_cons, List.countP_cons, ih Ar hlen]

theorem pyUpper_length (s : List Char) : (pyUpper s).length = s.length :=
  List.length_map s pyUpperChar

/-- Under the 5-letter precondition the two passes both succeed, and
`score_guess` is the composition of their pure characterisations. -/
theorem score_guess_eq (guess answer : List Char) (hg : guess.length = 5)
    (ha : answer.length = 5) :
    score_guess guess answer =
      some (spStatus (pyUpper guess)
        (fpStatus ((pyUpper guess).zip (pyUpper answer)) (List.replicate 5 "absent"))
        (fpCounts ((pyUpper guess).zip (pyUpper answer)) (fun _ => 0))) := by
  have hgu : (pyUpper guess).length = 5 := by rw [pyUpper_length]; exact hg
  have hau : (pyUpper answer).length = 5 := by rw [pyUpper_length]; exact ha
  have hzip : ((pyUpper guess).zip (pyUpper answer)).length = 5 := by
    rw [List.length_zip, hgu, hau]; rfl
  have hrep : (List.replicate 5 ("absent" : String)).length = 5 := List.length_replicate 5 _
  have h1 := firstPass_eq ((pyUpper guess).zip (pyUpper answer))
    (List.replicate 5 "absent") (fun _ => 0) (by rw [hzip, hrep])
  have hfpl : (fpStatus ((pyUpper guess).zip (pyUpper answer))
      (List.replicate 5 "absent")).length = 5 := by
    rw [fpStatus_length _ _ (by rw [hzip, hrep]), hrep]
  have h2 := secondPass_eq (pyUpper guess)
    (fpStatus ((pyUpper guess).zip (pyUpper answer)) (List.replicate 5 "absent"))
    (fpCounts ((pyUpper guess).zip (pyUpper answer)) (fun _ => 0))
    (by rw [hgu, hfpl])
  show (match firstPass ((pyUpper guess).zip (pyUpper answer))
        (List.replicate 5 "absent") (fun _ => 0) with
    | none => none
    | some (status, counts) => secondPass (pyUpper guess) status counts) = _
  rw [h1]
  exact h2

theorem fpStatus_self (l : List Char) :
    ∀ st : List String, l.length ≤ st.length →
    fpStatus (l.zip l) st = List.replicate l.length "correct" ++ st.drop l.length := by
  induction l with
  | nil => intro st _; rfl
  | cons x xs ih =>
    intro st hlen
    cases st with
    | nil => simp at hlen
    | cons s ss =>
      simp only [List.length_cons, Nat.add_le_add_iff_right] at hlen
      rw [List.zip_cons_cons]
      show (if x = x then "correct" else s) :: fpStatus (xs.zip xs) ss = _
      rw [if_pos rfl, ih ss hlen]
      simp [List.replicate_succ]

theorem fpCounts_self (l : List Char) :
    ∀ counts : Char → Nat, fpCounts (l.zip l) counts = counts := by
  induction l with
  | nil => intro counts; rfl
  | cons x xs ih =>
    intro counts
    rw [List.zip_cons_cons]
    show fpCounts (xs.zip xs) (if x = x then counts else bumpCount counts x) = counts
    rw [if_pos rfl, ih counts]

theorem spStatus_replicate_correct (gs : List Char) :
    ∀ (n : Nat) (counts : Char → Nat), gs.length ≤ n →
    spStatus gs (List.replicate n "correct") counts = List.replicate n "correct" := by
  induction gs with
  | nil => intro n counts _; rfl
  | cons g rest ih =>
    intro n counts hlen
    cases n with
    | zero => simp at hlen
    | succ m =>
      simp only [List.length_cons, Nat.add_le_add_iff_right] at hlen
      rw [List.replicate_succ]
      show (if ("correct" : String) = "correct" then
        "correct" :: spStatus rest (List.replicate m "correct") counts
        else _) = _
      rw [if_pos rfl, ih m counts hlen]

/-- C1: for every 5-letter guess and 5-letter answer, the number of
positions that `score_guess` marks CORRECT or PRESENT for any given letter
value never exceeds that letter's number of occurrences in the answer. -/
theorem score_guess_conserves_letter_counts (guess answer : List Char)
    (st : List String) (hg : guess.length = 5) (ha : answer.length = 5)
    (h : score_guess guess answer = some st) :
    ∀ c : Char, markedCP (pyUpper guess) st c ≤ (pyUpper answer).count c := by
  intro c
  rw [score_guess_eq guess answer hg ha] at h
  injection h with h
  subst h
  have hgu : (pyUpper guess).length = 5 := by rw [pyUpper_length]; exact hg
  have hau : (pyUpper answer).length = 5 := by rw [pyUpper_length]; exact ha
  have hGA : (pyUpper guess).length = (pyUpper answer).length := by rw [hgu, hau]
  have hzip : ((pyUpper guess).zip (pyUpper answer)).length = 5 := by
    rw [List.length_zip, hgu, hau]; rfl
  have hrep : (List.replicate 5 ("absent" : String)).length = 5 := List.length_replicate 5 _
  have habs : ∀ x ∈ List.replicate 5 ("absent" : String), x = "absent" :=
    fun x hx => List.eq_of_mem_replicate hx
  have hvals : ∀ x ∈ fpStatus ((pyUpper guess).zip (pyUpper answer))
      (List.replicate 5 "absent"), x = "correct" ∨ x = "absent" := by
    intro x hx
    rcases fpStatus_mem _ _ x hx with h | h
    · exact Or.inl h
    · exact Or.inr (habs x h)
  have h2 := secondPass_conserves c (pyUpper guess)
    (fpStatus ((pyUpper guess).zip (pyUpper answer)) (List.replicate 5 "absent"))
    hvals (fpCounts ((pyUpper guess).zip (pyUpper answer)) (fun _ => 0))
  have h3 := cpFst_zip_eq_markedCP c (pyUpper guess) (pyUpper answer)
    (fpStatus ((pyUpper guess).zip (pyUpper answer)) (List.replicate 5 "absent")) hGA
  have h4 : cpFst ((pyUpper guess).zip (pyUpper answer))
      (fpStatus ((pyUpper guess).zip (pyUpper answer)) (List.replicate 5 "absent")) c +
      fpCounts ((pyUpper guess).zip (pyUpper answer)) (fun _ => 0) c ≤
      0 + ((pyUpper guess).zip (pyUpper answer)).countP (fun p => p.2 == c) :=
    firstPass_conserves c ((pyUpper guess).zip (pyUpper answer))
      (List.replicate 5 "absent") habs (fun _ => 0)
  have h5 := countP_snd_zip c (pyUpper guess) (pyUpper answer) hGA
  have h6 : (pyUpper answer).count c = (pyUpper answer).countP (fun x => x == c) :=
    List.count_eq_countP c (pyUpper answer)
  omega

/-- C2: `score_guess("TEARS", "HEART")` returns exactly
`[PRESENT, CORRECT, CORRECT, CORRECT, ABSENT]`, computed by the two-pass
algorithm. -/
theorem score_guess_tears_heart :
    score_guess ['T', 'E', 'A', 'R', 'S'] ['H', 'E', 'A', 'R', 'T'] =
      some ["present", "correct", "correct", "correct", "absent"] := by
  decide

/-- C9: for every 5-letter word `A`, `score_guess(A, A)` is all CORRECT. -/
theorem score_guess_self_all_correct (a : List Char) (h : a.length = 5) :
    score_guess a a = some (List.replicate 5 "correct") := by
  rw [score_guess_eq a a h h]
  have hau : (pyUpper a).length = 5 := by rw [pyUpper_length]; exact h
  have hrep : (List.replicate 5 ("absent" : String)).length = 5 := List.length_replicate 5 _
  have h1 := fpStatus_self (pyUpper a) (List.replicate 5 "absent") (by rw [hau, hrep])
  have h2 := fpCounts_self (pyUpper a) (fun _ => 0)
  rw [h1, h2, hau]
  have hdrop : (List.replicate 5 ("absent" : String)).drop 5 = [] := rfl
  rw [hdrop, List.append_nil]
  rw [spStatus_replicate_correct (pyUpper a) 5 (fun _ => 0) (by rw [hau])]

/-- Witness for C9 at the concrete answer `"HEART"`. -/
theorem score_guess_self_all_correct_witness :
    score_guess ['H', 'E', 'A', 'R', 'T'] ['H', 'E', 'A', 'R', 'T'] =
      some (List.replicate 5 "correct") :=
  score_guess_self_all_correct ['H', 'E', 'A', 'R', 'T'] (by decide)

/-- Witness for C1 at guess `"TEARS"`, answer `"HEART"`, letter `E`. -/
theorem score_guess_conserves_letter_counts_witness :
    markedCP (pyUpper ['T', 'E', 'A', 'R', 'S'])
      ["present", "correct", "correct", "correct", "absent"] 'E' ≤
      (pyUpper ['H', 'E', 'A', 'R', 'T']).count 'E' :=
  score_guess_conserves_letter_counts ['T', 'E', 'A', 'R', 'S']
    ['H', 'E', 'A', 'R', 'T'] ["present", "correct", "correct", "correct", "absent"]
    (by decide) (by decide) (by decide) 'E'

/-- C10: under the precondition that guess and answer are both exactly 5
characters, `score_guess` is total and returns a list of exactly 5
statuses, each one of `"correct"`, `"present"`, `"absent"`; and a 6-letter
guess against a 5-letter answer makes the second pass index the 5-element
status list out of bounds (an `IndexError`, here `none`). -/
theorem score_guess_total_on_five_letters :
    (∀ guess answer : List Char, guess.length = 5 → answer.length = 5 →
      ∃ st, score_guess guess answer = some st ∧ st.length = 5 ∧
        ∀ x ∈ st, x = "correct" ∨ x = "present" ∨ x = "absent") ∧
    score_guess ['A', 'B', 'C', 'D', 'E', 'F'] ['H', 'E', 'A', 'R', 'T'] = none := by
  constructor
  · intro guess answer hg ha
    have hgu : (pyUpper guess).length = 5 := by rw [pyUpper_length]; exact hg
    have hau : (pyUpper answer).length = 5 := by rw [pyUpper_length]; exact ha
    have hzip : ((pyUpper guess).zip (pyUpper answer)).length = 5 := by
      rw [List.length_zip, hgu, hau]; rfl
    have hrep : (List.replicate 5 ("absent" : String)).length = 5 :=
      List.length_replicate 5 _
    have hfpl : (fpStatus ((pyUpper guess).zip (pyUpper answer))
        (List.replicate 5 "absent")).length = 5 := by
      rw [fpStatus_length _ _ (by rw [hzip, hrep]), hrep]
    refine ⟨_, score_guess_eq guess answer hg ha, ?_, ?_⟩
    · rw [spStatus_length _ _ _ (by rw [hgu, hfpl]), hfpl]
    · intro x hx
      rcases spStatus_mem _ _ _ x hx with h | h
      · exact Or.inr (Or.inl h)
      · rcases fpStatus_mem _ _ x h with h2 | h2
        · exact Or.inl h2
        · exact Or.inr (Or.inr (List.eq_of_mem_replicate h2))
  · decide

/-- Witness for C10 at guess `"TEARS"`, answer `"HEART"`. -/
theorem score_guess_total_on_five_letters_witness :
    (score_guess ['T', 'E', 'A', 'R', 'S'] ['H', 'E', 'A', 'R', 'T']).isSome = true := by
  obtain ⟨st, h1, _, _⟩ := score_guess_total_on_five_letters.1
    ['T', 'E', 'A', 'R', 'S'] ['H', 'E', 'A', 'R', 'T'] (by decide) (by decide)
  rw [h1]
  rfl

theorem fullmatchFiveUpper_iff (l : List Char) :
    fullmatchFiveUpper l = true ↔ isFiveAlpha l := by
  unfold fullmatchFiveUpper isFiveAlpha
  simp [List.all_eq_true]

/-- C6: the validator fails (with the length message) exactly when the
trimmed, uppercased input is not 5 alphabetic characters A–Z; in particular
it rejects `"AB"`, `"ABCDEF"` and `"AB3DE"`, and accepts `"flirt"`
(normalised to `"FLIRT"`). -/
theorem is_valid_guess_invalid_length :
    (∀ s : List Char, is_valid_guess s = (false, "Enter exactly 5 letters.") ↔
      ¬ isFiveAlpha (pyUpper (pyStrip s))) ∧
    (is_valid_guess ['A', 'B']).1 = false ∧
    (is_valid_guess ['A', 'B', 'C', 'D', 'E', 'F']).1 = false ∧
    (is_valid_guess ['A', 'B', '3', 'D', 'E']).1 = false ∧
    is_valid_guess ['f', 'l', 'i', 'r', 't'] = (true, "") ∧
    pyUpper (pyStrip ['f', 'l', 'i', 'r', 't']) = ['F', 'L', 'I', 'R', 'T'] := by
  refine ⟨?_, by decide, by decide, by decide, by decide, by decide⟩
  intro s
  rw [← fullmatchFiveUpper_iff]
  unfold is_valid_guess
  by_cases hm : fullmatchFiveUpper (pyUpper (pyStrip s)) = true
  · simp [hm, STRICT_VALIDATION]
  · simp [hm]

/-- C7 counterexample: on the successful input `"flirt"` the validator does
not return the normalised string `"FLIRT"`; its string component is the
empty error message. -/
theorem is_valid_guess_no_normalized_return :
    (is_valid_guess ['f', 'l', 'i', 'r', 't']).1 = true ∧
    (is_valid_guess ['f', 'l', 'i', 'r', 't']).2 ≠
      String.mk (pyUpper (pyStrip ['f', 'l', 'i', 'r', 't'])) := by
  decide

/-- C7 (amended): on success the validator returns `(True, "")`; the
normalised (trimmed, uppercased) string is computed by the submit handler
itself before validation, and that normalised string is what the handler
appends for the Round Controller. -/
theorem is_valid_guess_success_pair :
    (∀ s : List Char, (is_valid_guess s).1 = true → is_valid_guess s = (true, "")) ∧
    (∀ (s : GameState) (raw : List Char),
      s.round_idx < s.guesses.length →
      (is_valid_guess (pyUpper (pyStrip raw))).1 = true →
      roundGuesses (submitHandler s raw) s.round_idx =
        roundGuesses s s.round_idx ++ [pyUpper (pyStrip raw)]) := by
  constructor
  · intro s hs
    unfold is_valid_guess at hs ⊢
    by_cases hm : fullmatchFiveUpper (pyUpper (pyStrip s)) = true
    · simp [hm, STRICT_VALIDATION]
    · simp [hm] at hs
  · intro s raw hidx hval
    unfold submitHandler
    rw [if_neg (by rw [hval]; simp)]
    by_cases hwin : pyUpper (pyStrip raw) = ANSWERS.getD s.round_idx []
    · rw [if_pos hwin]
      show (s.guesses.set s.round_idx
        (roundGuesses s s.round_idx ++ [pyUpper (pyStrip raw)])).getD s.round_idx [] = _
      rw [List.getD_eq_getElem?_getD, List.getElem?_set_self (by simpa using hidx)]
      rfl
    · rw [if_neg hwin]
      show (s.guesses.set s.round_idx
        (roundGuesses s s.round_idx ++ [pyUpper (pyStrip raw)])).getD s.round_idx [] = _
      rw [List.getD_eq_getElem?_getD, List.getElem?_set_self (by simpa using hidx)]
      rfl

/-- Witness for C7 (amended) at the input `"flirt"` in the initial state. -/
theorem is_valid_guess_success_pair_witness :
    is_valid_guess ['f', 'l', 'i', 'r', 't'] = (true, "") ∧
    roundGuesses (submitHandler init_state ['f', 'l', 'i', 'r', 't']) 0 =
      [['F', 'L', 'I', 'R', 'T']] := by
  constructor
  · exact is_valid_guess_success_pair.1 ['f', 'l', 'i', 'r', 't'] (by decide)
  · have h := is_valid_guess_success_pair.2 init_state ['f', 'l', 'i', 'r', 't']
      (by decide) (by decide)
    have h0 : init_state.round_idx = 0 := rfl
    rw [h0] at h
    rw [h]
    decide

/-- C4: whenever every round's solved flag is true, the short-circuit puts
the controller on the final-question screen regardless of the stored round
index value. -/
theorem all_solved_goes_final (s : GameState)
    (h : s.round_solved.all (fun b => b) = true) :
    isFinalQuestion (allSolvedShortcut s) = true := by
  unfold allSolvedShortcut isFinalQuestion
  by_cases h2 : s.round_idx < ANSWERS.length
  · rw [if_pos ⟨h, h2⟩]
    simp
  · rw [if_neg (fun hc => h2 hc.2)]
    simp
    omega

/-- Witness for C4: all four rounds solved but a stale round index 1. -/
theorem all_solved_goes_final_witness :
    isFinalQuestion (allSolvedShortcut staleAllSolvedState) = true :=
  all_solved_goes_final staleAllSolvedState (by decide)

theorem getD_set_same {α : Type} (l : List α) (i : Nat) (a : α) :
    (l.set i a).getD i a = a := by
  rw [List.getD_eq_getElem?_getD]
  by_cases h : i < l.length
  · rw [List.getElem?_set_self (by simpa using h)]
    rfl
  · rw [List.getElem?_eq_none (by rw [List.length_set]; omega)]
    rfl

theorem getD_set_ne {α : Type} (l : List α) (i j : Nat) (a d : α) (h : j ≠ i) :
    (l.set i a).getD j d = l.getD j d := by
  rw [List.getD_eq_getElem?_getD, List.getD_eq_getElem?_getD,
    List.getElem?_set_ne (fun he => h he.symm)]

theorem allSolvedShortcut_guesses (s : GameState) :
    (allSolvedShortcut s).guesses = s.guesses := by
  unfold allSolvedShortcut
  split <;> rfl

theorem allSolvedShortcut_round_solved (s : GameState) :
    (allSolvedShortcut s).round_solved = s.round_solved := by
  unfold allSolvedShortcut
  split <;> rfl

theorem allSolvedShortcut_id (s : GameState)
    (hlen : s.round_solved.length = ANSWERS.length)
    (hidx : s.round_idx < ANSWERS.length)
    (hsolved : solvedAt s s.round_idx = false) :
    allSolvedShortcut s = s := by
  unfold allSolvedShortcut
  rw [if_neg]
  intro hc
  have hall := hc.1
  rw [List.all_eq_true] at hall
  have hm : s.round_idx < s.round_solved.length := by omega
  have hx := hall (s.round_solved.get ⟨s.round_idx, hm⟩) (s.round_solved.get_mem _ _)
  have hy : solvedAt s s.round_idx = true := by
    unfold solvedAt
    rw [List.getD_eq_getElem?_getD, List.getElem?_eq_getElem hm]
    simpa using hx
  rw [hsolved] at hy
  cases hy

/-- C5: submitting a guess that fails validation leaves the entire game
state unchanged: nothing is appended, no flag changes, no transition
happens; the error is only a rendered message. -/
theorem invalid_guess_leaves_state_unchanged (s : GameState) (raw : List Char)
    (hlen : s.round_solved.length = ANSWERS.length)
    (hidx : s.round_idx < ANSWERS.length)
    (hsolved : solvedAt s s.round_idx = false)
    (hcount : (roundGuesses s s.round_idx).length < 6)
    (hinvalid : (is_valid_guess (pyUpper (pyStrip raw))).1 = false) :
    step s (.submit raw) = s := by
  show stepScreen (allSolvedShortcut s) (.submit raw) = s
  rw [allSolvedShortcut_id s hlen hidx hsolved]
  unfold stepScreen
  rw [if_neg (by omega), if_neg (by rw [hsolved]; simp), if_neg (by omega)]
  show submitHandler s raw = s
  unfold submitHandler
  rw [if_pos hinvalid]

/-- Witness for C5: submitting the too-short `"AB"` in the fresh session. -/
theorem invalid_guess_leaves_state_unchanged_witness :
    step init_state (.submit ['A', 'B']) = init_state :=
  invalid_guess_leaves_state_unchanged init_state ['A', 'B']
    (by decide) (by decide) (by decide) (by decide) (by decide)

/-- C8: the "Try again" action in an exhausted round clears only the
current round's guesses, status rows and solved flag, and leaves the round
index and every other round's data unchanged. -/
theorem try_again_clears_only_current_round (s : GameState)
    (hlen : s.round_solved.length = ANSWERS.length)
    (hidx : s.round_idx < ANSWERS.length)
    (hsolved : solvedAt s s.round_idx = false)
    (hcount : 6 ≤ (roundGuesses s s.round_idx).length) :
    (step s .tryAgain).round_idx = s.round_idx ∧
    roundGuesses (step s .tryAgain) s.round_idx = [] ∧
    roundStatuses (step s .tryAgain) s.round_idx = [] ∧
    solvedAt (step s .tryAgain) s.round_idx = false ∧
    ∀ r : Nat, r ≠ s.round_idx →
      roundGuesses (step s .tryAgain) r = roundGuesses s r ∧
      roundStatuses (step s .tryAgain) r = roundStatuses s r ∧
      solvedAt (step s .tryAgain) r = solvedAt s r := by
  have hstep : step s .tryAgain = clearCurrentRound s := by
    show stepScreen (allSolvedShortcut s) .tryAgain = _
    rw [allSolvedShortcut_id s hlen hidx hsolved]
    unfold stepScreen
    rw [if_neg (by omega), if_neg (by rw [hsolved]; simp), if_pos hcount]
  rw [hstep]
  refine ⟨rfl, ?_, ?_, ?_, ?_⟩
  · exact getD_set_same s.guesses s.round_idx []
  · exact getD_set_same s.statuses s.round_idx []
  · exact getD_set_same s.round_solved s.round_idx false
  · intro r hr
    exact ⟨getD_set_ne s.guesses s.round_idx r [] [] hr,
      getD_set_ne s.statuses s.round_idx r [] [] hr,
      getD_set_ne s.round_solved s.round_idx r false false hr⟩

/-- Witness for C8 on a concrete exhausted round 0. -/
theorem try_again_clears_only_current_round_witness :
    roundGuesses (step exhaustedState .tryAgain) exhaustedState.round_idx = [] ∧
    roundGuesses (step exhaustedState .tryAgain) 1 = roundGuesses exhaustedState 1 := by
  have h := try_again_clears_only_current_round exhaustedState
    (by decide) (by decide) (by decide) (by decide)
  exact ⟨h.2.1, (h.2.2.2.2 1 (by decide)).1⟩

theorem submitHandler_guesses (s : GameState) (raw : List Char)
    (hv : ¬ (is_valid_guess (pyUpper (pyStrip raw))).1 = false) :
    (submitHandler s raw).guesses =
      s.guesses.set s.round_idx (roundGuesses s s.round_idx ++ [pyUpper (pyStrip raw)]) := by
  unfold submitHandler
  rw [if_neg hv]
  split <;> rfl

theorem submitHandler_roundGuesses (s : GameState) (raw : List Char) (r : Nat) :
    roundGuesses (submitHandler s raw) r = roundGuesses s r ∨
    (r = s.round_idx ∧
      roundGuesses (submitHandler s raw) r =
        roundGuesses s r ++ [pyUpper (pyStrip raw)]) := by
  by_cases hv : (is_valid_guess (pyUpper (pyStrip raw))).1 = false
  · left
    unfold submitHandler
    rw [if_pos hv]
  · have hg := submitHandler_guesses s raw hv
    by_cases hr : r = s.round_idx
    · by_cases hlt : s.round_idx < s.guesses.length
      · right
        refine ⟨hr, ?_⟩
        unfold roundGuesses
        rw [hg, hr, List.getD_eq_getElem?_getD,
          List.getElem?_set_self (by simpa using hlt)]
        rfl
      · left
        unfold roundGuesses
        rw [hg, hr, List.getD_eq_getElem?_getD,
          List.getElem?_eq_none (by rw [List.length_set]; omega),
          List.getD_eq_getElem?_getD, List.getElem?_eq_none (by omega)]
    · left
      unfold roundGuesses
      rw [hg]
      exact getD_set_ne s.guesses s.round_idx r _ [] hr

theorem roundGuesses_shortcut (s : GameState) (r : Nat) :
    roundGuesses (allSolvedShortcut s) r = roundGuesses s r := by
  unfold roundGuesses
  rw [allSolvedShortcut_guesses]

theorem solvedAt_shortcut (s : GameState) (r : Nat) :
    solvedAt (allSolvedShortcut s) r = solvedAt s r := by
  unfold solvedAt
  rw [allSolvedShortcut_round_solved]

theorem init_roundGuesses (r : Nat) : roundGuesses init_state r = [] := by
  show (List.replicate ANSWERS.length []).getD r [] = []
  rw [List.getD_eq_getElem?_getD, List.getElem?_replicate]
  split <;> rfl

theorem stepScreen_roundGuesses (t : GameState) (a : UserAction) (r : Nat) :
    (roundGuesses (stepScreen t a) r).length ≤ (roundGuesses t r).length ∨
    ((roundGuesses (stepScreen t a) r).length = (roundGuesses t r).length + 1 ∧
      (roundGuesses t r).length < 6 ∧ solvedAt t r = false) := by
  unfold stepScreen
  by_cases h1 : ANSWERS.length ≤ t.round_idx
  · rw [if_pos h1]
    cases a <;> exact Or.inl (Nat.le_refl _)
  · rw [if_neg h1]
    by_cases h2 : solvedAt t t.round_idx = true
    · rw [if_pos h2]
      cases a <;> exact Or.inl (Nat.le_refl _)
    · rw [if_neg h2]
      by_cases h3 : 6 ≤ (roundGuesses t t.round_idx).length
      · rw [if_pos h3]
        cases a with
        | tryAgain =>
          left
          show ((t.guesses.set t.round_idx []).getD r []).length ≤ (roundGuesses t r).length
          by_cases hr : r = t.round_idx
          · rw [hr, getD_set_same]
            exact Nat.zero_le _
          · rw [getD_set_ne t.guesses t.round_idx r [] [] hr]
            exact Nat.le_refl _
        | submit raw => exact Or.inl (Nat.le_refl _)
        | nextRound => exact Or.inl (Nat.le_refl _)
        | reset => exact Or.inl (Nat.le_refl _)
        | clickYes => exact Or.inl (Nat.le_refl _)
      · rw [if_neg h3]
        cases a with
        | submit raw =>
          rcases submitHandler_roundGuesses t raw r with h | ⟨hr, heq⟩
          · left
            rw [h]
          · right
            subst hr
            refine ⟨?_, by omega, ?_⟩
            · rw [heq, List.length_append]
              rfl
            · cases hb : solvedAt t t.round_idx with
              | false => rfl
              | true => exact absurd hb h2
        | tryAgain => exact Or.inl (Nat.le_refl _)
        | nextRound => exact Or.inl (Nat.le_refl _)
        | reset => exact Or.inl (Nat.le_refl _)
        | clickYes => exact Or.inl (Nat.le_refl _)

theorem step_roundGuesses (s : GameState) (a : UserAction) (r : Nat) :
    (roundGuesses (step s a) r).length ≤ (roundGuesses s r).length ∨
    ((roundGuesses (step s a) r).length = (roundGuesses s r).length + 1 ∧
      (roundGuesses s r).length < 6 ∧ solvedAt s r = false) := by
  cases a with
  | reset =>
    left
    show (roundGuesses init_state r).length ≤ _
    rw [init_roundGuesses]
    exact Nat.zero_le _
  | submit raw =>
    have h := stepScreen_roundGuesses (allSolvedShortcut s) (.submit raw) r
    rwa [roundGuesses_shortcut, solvedAt_shortcut] at h
  | nextRound =>
    have h := stepScreen_roundGuesses (allSolvedShortcut s) .nextRound r
    rwa [roundGuesses_shortcut, solvedAt_shortcut] at h
  | tryAgain =>
    have h := stepScreen_roundGuesses (allSolvedShortcut s) .tryAgain r
    rwa [roundGuesses_shortcut, solvedAt_shortcut] at h
  | clickYes =>
    have h := stepScreen_roundGuesses (allSolvedShortcut s) .clickYes r
    rwa [roundGuesses_shortcut, solvedAt_shortcut] at h

/-- C3: in every reachable game state each round holds at most 6 guesses,
and once a round is solved or its guess count has reached 6 no action ever
grows that round's guess list (a 7th submission is blocked; reset and
"try again" only clear). -/
theorem rounds_capped_at_six :
    (∀ s : GameState, Reachable s → ∀ r : Nat, (roundGuesses s r).length ≤ 6) ∧
    (∀ (s : GameState) (a : UserAction) (r : Nat),
      solvedAt s r = true ∨ 6 ≤ (roundGuesses s r).length →
      (roundGuesses (step s a) r).length ≤ (roundGuesses s r).length) := by
  constructor
  · intro s hreach
    induction hreach with
    | init =>
      intro r
      rw [init_roundGuesses]
      exact Nat.zero_le _
    | step a _ ih =>
      intro r
      rcases step_roundGuesses _ a r with h | ⟨h1, h2, _⟩
      · exact Nat.le_trans h (ih r)
      · omega
  · intro s a r h
    rcases step_roundGuesses s a r with h1 | ⟨h1, h2, h3⟩
    · exact h1
    · rcases h with h | h
      · rw [h] at h3
        cases h3
      · omega

/-- Witness for C3: the initial state's round 0, and a no-append check on a
state whose round 2 is already solved. -/
theorem rounds_capped_at_six_witness :
    (roundGuesses init_state 0).length ≤ 6 ∧
    (roundGuesses (step solvedRound2State (.submit ['S', 'M', 'I', 'L', 'E'])) 2).length ≤
      (roundGuesses solvedRound2State 2).length :=
  ⟨rounds_capped_at_six.1 init_state Reachable.init 0,
    rounds_capped_at_six.2 solvedRound2State (.submit ['S', 'M', 'I', 'L', 'E']) 2
      (Or.inl (by decide))⟩
